import Mathlib

/-!
Verification of the speculation-safe sanitization primitives of
`include/linux/nospec.h` (Linux kernel), modelled for a 64-bit target
(`unsigned long` = 64-bit word, `BITS_PER_LONG = 64`).

Unsigned longs are modelled as natural numbers below `2 ^ 64`; wraparound
subtraction, twos-complement reinterpretation and the arithmetic right
shift used by the source are made explicit.
-/

/-- `BITS_PER_LONG` on the modelled 64-bit target. -/
def BITS_PER_LONG : Nat := 64

/-- `2 ^ BITS_PER_LONG`, the modulus of `unsigned long` arithmetic. -/
def WORD : Nat := 2 ^ BITS_PER_LONG

/-- `2 ^ (BITS_PER_LONG - 1)`, the weight of the sign bit of a `long`. -/
def HALF : Nat := 2 ^ (BITS_PER_LONG - 1)

/-- Reinterpret an `unsigned long` value as a signed `long`
(twos-complement). -/
def toSigned (v : Nat) : Int :=
  if v % WORD < HALF then ((v % WORD : Nat) : Int)
  else ((v % WORD : Nat) : Int) - (WORD : Int)

/-- Reinterpret a signed value back as an `unsigned long`. -/
def toWord (z : Int) : Nat := (z % (WORD : Int)).toNat

/-- `unsigned long` subtraction with wraparound (`a - b` in C). -/
def wsub (a b : Nat) : Nat := toWord ((a : Int) - (b : Int))

/-- Bitwise complement `~v` on an `unsigned long`. -/
def wnot (v : Nat) : Nat := WORD - 1 - v % WORD

/-- Arithmetic right shift of a `long` by `k` bits, with the result
reinterpreted as an `unsigned long`: floor division of the signed value
by `2 ^ k`. -/
def sar (v k : Nat) : Nat := toWord (toSigned v / ((2 : Int) ^ k))

/-- `OPTIMIZER_HIDE_VAR`: an optimizer barrier with no functional effect
on the value. -/
def OPTIMIZER_HIDE_VAR (v : Nat) : Nat := v

/-- `array_index_mask_nospec(index, size)`:
`~(long)(index | (size - 1UL - index)) >> (BITS_PER_LONG - 1)`. -/
def array_index_mask_nospec (index size : Nat) : Nat :=
  let index := OPTIMIZER_HIDE_VAR index
  sar (wnot (index ||| wsub (wsub size 1) index)) (BITS_PER_LONG - 1)

/-- `array_index_nospec(index, size)` instantiated at `unsigned long`:
`index & array_index_mask_nospec(index, size)`. -/
def array_index_nospec (index size : Nat) : Nat :=
  let _i := index
  let _s := size
  let _mask := array_index_mask_nospec _i _s
  _i &&& _mask

/-- `barrier_nospec()` in its default form, `do { } while (0)`: the empty
statement, i.e. the identity transformer on any program state. -/
def barrier_nospec {σ : Type} (s : σ) : σ := s

/-- `neq_mask_nospec(x, y)`:
`((long)((x ^ y) ^ ((x ^ y) - 1))) >> (BITS_PER_LONG - 1)`. -/
def neq_mask_nospec (x y : Nat) : Nat :=
  let x := OPTIMIZER_HIDE_VAR x
  let y := OPTIMIZER_HIDE_VAR y
  sar ((x ^^^ y) ^^^ wsub (x ^^^ y) 1) (BITS_PER_LONG - 1)

/-- A structure carrying the `spec_magic` guard field read by
`magic_neq_nospec`. -/
structure SpecStruct : Type where
  spec_magic : Nat

/-- `magic_neq_nospec(p, magic)` instantiated at a pointer to a structure
with an `unsigned long` `spec_magic` field.  The pointer is modelled by
its numeric value `p` together with the dereference map `deref` giving the
structure it addresses; a null pointer is the numeric value `0`. -/
def magic_neq_nospec (deref : Nat → SpecStruct) (p magic : Nat) : Nat :=
  let _p := p
  let _p_spec_magic := (deref _p).spec_magic
  let _magic := magic
  let _mask := neq_mask_nospec _p_spec_magic _magic
  _p &&& _mask

/-! ### Numeric facts about the word parameters -/

lemma WORD_def : WORD = 2 ^ BITS_PER_LONG := rfl

lemma HALF_def : HALF = 2 ^ (BITS_PER_LONG - 1) := rfl

lemma WORD_eq_two_mul_HALF : WORD = 2 * HALF := by decide

lemma HALF_pos : 0 < HALF := by decide

lemma HALF_cast : ((HALF : Nat) : Int) = (2 : Int) ^ (BITS_PER_LONG - 1) := by
  unfold HALF
  push_cast
  rfl

/-! ### Word reinterpretation and wraparound subtraction -/

lemma toWord_cast (z : Int) : ((toWord z : Nat) : Int) = z % (WORD : Int) := by
  unfold toWord
  exact Int.toNat_of_nonneg (Int.emod_nonneg z (by decide))

lemma toWord_neg_one : toWord (-1) = WORD - 1 := by decide

lemma wsub_cast (a b : Nat) : ((wsub a b : Nat) : Int) = ((a : Int) - b) % (WORD : Int) :=
  toWord_cast _

lemma wsub_lt (a b : Nat) : wsub a b < WORD := by
  have h := wsub_cast a b
  have h1 := Int.emod_nonneg ((a : Int) - b) (show (WORD : Int) ≠ 0 by decide)
  have h2 := Int.emod_lt_of_pos ((a : Int) - b) (show (0 : Int) < (WORD : Int) by decide)
  omega

lemma wsub_eq_of_le {a b : Nat} (hba : b ≤ a) (ha : a < WORD) : wsub a b = a - b := by
  have h := wsub_cast a b
  rw [Int.emod_eq_of_lt (by omega) (by omega)] at h
  omega

lemma wsub_wrap {a b : Nat} (hab : a < b) (hb : b < WORD) : wsub a b = WORD + a - b := by
  have h := wsub_cast a b
  have h2 : ((a : Int) - b) % (WORD : Int) = ((a : Int) - b + (WORD : Int) * 1) % (WORD : Int) :=
    (Int.add_mul_emod_self_left _ _ _).symm
  rw [h2, Int.emod_eq_of_lt (by omega) (by omega)] at h
  omega

/-! ### The arithmetic right shift by BITS_PER_LONG - 1 -/

lemma toSigned_low {v : Nat} (h : v % WORD < HALF) : toSigned v = ((v % WORD : Nat) : Int) := by
  unfold toSigned
  rw [if_pos h]

lemma toSigned_high {v : Nat} (h : HALF ≤ v % WORD) :
    toSigned v = ((v % WORD : Nat) : Int) - (WORD : Int) := by
  unfold toSigned
  rw [if_neg (by omega)]

lemma int_ediv_neg {x p : Int} (hp : 0 < p) (h1 : -p ≤ x) (h2 : x < 0) : x / p = -1 := by
  have h0 : x = (x + p) + -1 * p := by ring
  rw [h0, Int.add_mul_ediv_right _ _ (by omega), Int.ediv_eq_zero_of_lt (by omega) (by omega)]
  omega

lemma sar_low {v : Nat} (h : v % WORD < HALF) : sar v (BITS_PER_LONG - 1) = 0 := by
  have hlt : ((v % WORD : Nat) : Int) < (2 : Int) ^ (BITS_PER_LONG - 1) := by
    rw [← HALF_cast]
    omega
  unfold sar
  rw [toSigned_low h, Int.ediv_eq_zero_of_lt (by omega) hlt]
  decide

lemma sar_high {v : Nat} (h : HALF ≤ v % WORD) : sar v (BITS_PER_LONG - 1) = WORD - 1 := by
  have hw : WORD = 2 * HALF := WORD_eq_two_mul_HALF
  have hhp : 0 < HALF := HALF_pos
  have hm : v % WORD < WORD := Nat.mod_lt _ (by decide)
  have hp : (0 : Int) < (2 : Int) ^ (BITS_PER_LONG - 1) := by
    rw [← HALF_cast]
    omega
  have h1 : -(2 : Int) ^ (BITS_PER_LONG - 1) ≤ ((v % WORD : Nat) : Int) - (WORD : Int) := by
    rw [← HALF_cast]
    omega
  have h2 : ((v % WORD : Nat) : Int) - (WORD : Int) < 0 := by omega
  unfold sar
  rw [toSigned_high h, int_ediv_neg hp h1 h2, toWord_neg_one]

lemma sar_cases (v : Nat) : sar v (BITS_PER_LONG - 1) = 0 ∨ sar v (BITS_PER_LONG - 1) = WORD - 1 := by
  rcases Nat.lt_or_ge (v % WORD) HALF with h | h
  · exact Or.inl (sar_low h)
  · exact Or.inr (sar_high h)

/-! ### Sign-bit reasoning -/

lemma testBit_msb_true {a : Nat} (h1 : HALF ≤ a) (h2 : a < WORD) :
    a.testBit (BITS_PER_LONG - 1) = true := by
  have hw : WORD = 2 * HALF := WORD_eq_two_mul_HALF
  have hhp : 0 < HALF := HALF_pos
  have hge : 1 ≤ a / HALF := (Nat.le_div_iff_mul_le hhp).mpr (by omega)
  have hlt : a / HALF < 2 := Nat.div_lt_of_lt_mul (by omega)
  have hd : a / HALF = 1 := by omega
  rw [Nat.testBit_to_div_mod, ← HALF_def, hd]
  rfl

lemma ge_half_or_left (a b : Nat) (h1 : HALF ≤ a) (h2 : a < WORD) : HALF ≤ a ||| b := by
  have hb : (a ||| b).testBit (BITS_PER_LONG - 1) = true := by
    rw [Nat.testBit_or, testBit_msb_true h1 h2]
    simp
  have hge := Nat.testBit_implies_ge hb
  rw [HALF_def]
  exact hge

lemma ge_half_or_right (a b : Nat) (h1 : HALF ≤ b) (h2 : b < WORD) : HALF ≤ a ||| b := by
  have hb : (a ||| b).testBit (BITS_PER_LONG - 1) = true := by
    rw [Nat.testBit_or, testBit_msb_true h1 h2]
    simp
  have hge := Nat.testBit_implies_ge hb
  rw [HALF_def]
  exact hge

lemma sar_wnot_zero {t : Nat} (h1 : HALF ≤ t) (h2 : t < WORD) :
    sar (wnot t) (BITS_PER_LONG - 1) = 0 := by
  have hw : WORD = 2 * HALF := WORD_eq_two_mul_HALF
  apply sar_low
  unfold wnot
  rw [Nat.mod_eq_of_lt h2, Nat.mod_eq_of_lt (by omega)]
  omega

lemma sar_wnot_ones {t : Nat} (h : t < HALF) : sar (wnot t) (BITS_PER_LONG - 1) = WORD - 1 := by
  have hw : WORD = 2 * HALF := WORD_eq_two_mul_HALF
  have hhp : 0 < HALF := HALF_pos
  apply sar_high
  unfold wnot
  rw [Nat.mod_eq_of_lt (show t < WORD by omega), Nat.mod_eq_of_lt (by omega)]
  omega

/-! ### The index mask -/

lemma array_mask_ones {index size : Nat} (h1 : index < size) (h2 : size ≤ HALF) :
    array_index_mask_nospec index size = WORD - 1 := by
  have hw : WORD = 2 * HALF := WORD_eq_two_mul_HALF
  have hhp : 0 < HALF := HALF_pos
  have hs1 : wsub size 1 = size - 1 := wsub_eq_of_le (by omega) (by omega)
  have hs2 : wsub (size - 1) index = size - 1 - index := wsub_eq_of_le (by omega) (by omega)
  simp only [array_index_mask_nospec, OPTIMIZER_HIDE_VAR]
  rw [hs1, hs2]
  apply sar_wnot_ones
  have hidx : index < 2 ^ (BITS_PER_LONG - 1) := by rw [← HALF_def]; omega
  have hsub : size - 1 - index < 2 ^ (BITS_PER_LONG - 1) := by rw [← HALF_def]; omega
  rw [HALF_def]
  exact Nat.or_lt_two_pow hidx hsub

lemma array_mask_zero {index size : Nat} (h1 : index < WORD) (h2 : size ≤ index) :
    array_index_mask_nospec index size = 0 := by
  have hw : WORD = 2 * HALF := WORD_eq_two_mul_HALF
  have hhp : 0 < HALF := HALF_pos
  simp only [array_index_mask_nospec, OPTIMIZER_HIDE_VAR]
  have hwlt : wsub (wsub size 1) index < WORD := wsub_lt _ _
  have htlt : index ||| wsub (wsub size 1) index < WORD := by
    rw [WORD_def]
    exact Nat.or_lt_two_pow (WORD_def ▸ h1) (WORD_def ▸ hwlt)
  have hge : HALF ≤ index ||| wsub (wsub size 1) index := by
    rcases Nat.lt_or_ge index HALF with hc | hc
    · refine ge_half_or_right index _ ?_ hwlt
      by_cases hz : size = 0
      · subst hz
        have e1 : wsub 0 1 = WORD + 0 - 1 := wsub_wrap (by omega) (by omega)
        have e2 : wsub (WORD + 0 - 1) index = WORD + 0 - 1 - index :=
          wsub_eq_of_le (by omega) (by omega)
        rw [e1, e2]
        omega
      · have e1 : wsub size 1 = size - 1 := wsub_eq_of_le (by omega) (by omega)
        have e2 : wsub (size - 1) index = WORD + (size - 1) - index :=
          wsub_wrap (by omega) (by omega)
        rw [e1, e2]
        omega
    · exact ge_half_or_left _ _ hc h1
  exact sar_wnot_zero hge htlt

lemma array_mask_cases (index size : Nat) :
    array_index_mask_nospec index size = 0 ∨ array_index_mask_nospec index size = WORD - 1 := by
  simp only [array_index_mask_nospec, OPTIMIZER_HIDE_VAR]
  exact sar_cases _

/-! ### The equality mask -/

lemma div_half_of_decomp {q r : Nat} (hr : r < HALF) : (HALF * q + r) / HALF = q := by
  rw [Nat.mul_add_div HALF_pos, Nat.div_eq_of_lt hr, Nat.add_zero]

lemma xor_pred_lt_half {d : Nat} (h0 : 0 < d) (h1 : d < WORD) (h2 : d ≠ HALF) :
    d ^^^ (d - 1) < HALF := by
  have hw : WORD = 2 * HALF := WORD_eq_two_mul_HALF
  have hhp : 0 < HALF := HALF_pos
  obtain ⟨q, r, hd, hr⟩ : ∃ q r, d = HALF * q + r ∧ r < HALF :=
    ⟨d / HALF, d % HALF, (Nat.div_add_mod d HALF).symm, Nat.mod_lt _ hhp⟩
  have hq2 : q < 2 := by
    have hlt : HALF * q < HALF * 2 := by omega
    exact Nat.lt_of_mul_lt_mul_left hlt
  have hr0 : r ≠ 0 := by
    intro hc
    subst hc
    rcases (show q = 0 ∨ q = 1 by omega) with hq | hq <;> subst hq <;> omega
  have hsh : d >>> (BITS_PER_LONG - 1) = (d - 1) >>> (BITS_PER_LONG - 1) := by
    have hpred : d - 1 = HALF * q + (r - 1) := by omega
    rw [Nat.shiftRight_eq_div_pow, Nat.shiftRight_eq_div_pow, ← HALF_def, hpred, hd,
      div_half_of_decomp hr, div_half_of_decomp (show r - 1 < HALF by omega)]
  rw [HALF_def]
  apply Nat.lt_pow_two_of_testBit
  intro i hi
  rw [Nat.testBit_xor]
  have hi2 : i = (BITS_PER_LONG - 1) + (i - (BITS_PER_LONG - 1)) := by omega
  rw [hi2, ← Nat.testBit_shiftRight, ← Nat.testBit_shiftRight, hsh, Bool.xor_self]

lemma neq_mask_spec (x y : Nat) (hx : x < WORD) (hy : y < WORD) :
    neq_mask_nospec x y = if x ^^^ y = 0 ∨ x ^^^ y = HALF then WORD - 1 else 0 := by
  have hw : WORD = 2 * HALF := WORD_eq_two_mul_HALF
  have hhp : 0 < HALF := HALF_pos
  have hd : x ^^^ y < WORD := by
    rw [WORD_def]
    exact Nat.xor_lt_two_pow (WORD_def ▸ hx) (WORD_def ▸ hy)
  simp only [neq_mask_nospec, OPTIMIZER_HIDE_VAR]
  by_cases h0 : x ^^^ y = 0
  · rw [if_pos (Or.inl h0), h0]
    have e1 : wsub 0 1 = WORD + 0 - 1 := wsub_wrap (by omega) (by omega)
    rw [e1, Nat.zero_xor]
    apply sar_high
    rw [Nat.mod_eq_of_lt (by omega)]
    omega
  · by_cases hh : x ^^^ y = HALF
    · rw [if_pos (Or.inr hh), hh]
      have e1 : wsub HALF 1 = HALF - 1 := wsub_eq_of_le (by omega) (by omega)
      have e2 : HALF ^^^ (HALF - 1) = WORD - 1 := by decide
      rw [e1, e2]
      apply sar_high
      rw [Nat.mod_eq_of_lt (by omega)]
      omega
    · rw [if_neg (fun hc => hc.elim h0 hh)]
      have e1 : wsub (x ^^^ y) 1 = (x ^^^ y) - 1 := wsub_eq_of_le (by omega) (by omega)
      rw [e1]
      have hlt : (x ^^^ y) ^^^ ((x ^^^ y) - 1) < HALF :=
        xor_pred_lt_half (by omega) hd hh
      apply sar_low
      rw [Nat.mod_eq_of_lt (by omega)]
      exact hlt

lemma neq_mask_cases (x y : Nat) :
    neq_mask_nospec x y = 0 ∨ neq_mask_nospec x y = WORD - 1 := by
  simp only [neq_mask_nospec, OPTIMIZER_HIDE_VAR]
  exact sar_cases _

lemma land_ones {x : Nat} (h : x < WORD) : x &&& (WORD - 1) = x := by
  have hh := Nat.and_pow_two_sub_one_of_lt_two_pow (n := BITS_PER_LONG) (WORD_def ▸ h)
  rw [WORD_def]
  exact hh

/-! ### Claim theorems -/

/-- C1 (amended): for unsigned machine words with `1 ≤ size ≤ 2 ^ (BITS_PER_LONG - 1)`
and `index < size`, `array_index_mask_nospec` returns the all-ones word and
`array_index_nospec` returns `index` unchanged.  (The unamended claim, with no upper
bound on `size`, fails: see the counterexample.) -/
theorem C1_in_bounds_mask_ones (index size : Nat) (h1 : index < size) (h2 : size ≤ HALF) :
    array_index_mask_nospec index size = WORD - 1 ∧ array_index_nospec index size = index := by
  have hw : WORD = 2 * HALF := WORD_eq_two_mul_HALF
  have hm := array_mask_ones h1 h2
  refine ⟨hm, ?_⟩
  simp only [array_index_nospec]
  rw [hm]
  exact land_ones (by omega)

/-- C1 counterexample: `index = 2 ^ 63 < size = 2 ^ 63 + 1` is in bounds, yet the
mask is not all-ones and the sanitized index is not `index`. -/
theorem C1_counterexample :
    (2 : Nat) ^ 63 < 2 ^ 63 + 1 ∧ 1 ≤ (2 : Nat) ^ 63 + 1 ∧ (2 : Nat) ^ 63 + 1 < WORD ∧
    ¬ (array_index_mask_nospec (2 ^ 63) (2 ^ 63 + 1) = WORD - 1 ∧
       array_index_nospec (2 ^ 63) (2 ^ 63 + 1) = 2 ^ 63) := by decide

/-- C1 witness: the amended theorem applied at `index = 3`, `size = 7`. -/
theorem C1_witness :
    (3 : Nat) < 7 ∧ (7 : Nat) ≤ HALF ∧
    (array_index_mask_nospec 3 7 = WORD - 1 ∧ array_index_nospec 3 7 = 3) :=
  ⟨by decide, by decide, C1_in_bounds_mask_ones 3 7 (by decide) (by decide)⟩

/-- C2: for unsigned machine words with `index ≥ size`, `array_index_mask_nospec`
returns the all-zeros word and `array_index_nospec` returns `0`. -/
theorem C2_out_of_bounds_mask_zero (index size : Nat) (h1 : index < WORD) (h2 : size ≤ index) :
    array_index_mask_nospec index size = 0 ∧ array_index_nospec index size = 0 := by
  have hm := array_mask_zero h1 h2
  refine ⟨hm, ?_⟩
  simp only [array_index_nospec]
  rw [hm, Nat.and_zero]

/-- C2 witness: the theorem applied at `index = 7`, `size = 3`. -/
theorem C2_witness :
    (7 : Nat) < WORD ∧ (3 : Nat) ≤ 7 ∧
    (array_index_mask_nospec 7 3 = 0 ∧ array_index_nospec 7 3 = 0) :=
  ⟨by decide, by decide, C2_out_of_bounds_mask_zero 7 3 (by decide) (by decide)⟩

/-- C3: for unsigned machine words, `neq_mask_nospec x y` is all-ones when `x = y`,
and all-zeros when `x ≠ y` and the differing bits are not solely the sign bit
(`x ^^^ y ≠ 2 ^ (BITS_PER_LONG - 1)`). -/
theorem C3_neq_mask (x y : Nat) (hx : x < WORD) (hy : y < WORD) :
    (x = y → neq_mask_nospec x y = WORD - 1) ∧
    (x ≠ y → x ^^^ y ≠ HALF → neq_mask_nospec x y = 0) := by
  constructor
  · intro hxy
    subst hxy
    rw [neq_mask_spec x x hx hx, if_pos (Or.inl (Nat.xor_self x))]
  · intro hne hsb
    have hcon : ¬ (x ^^^ y = 0 ∨ x ^^^ y = HALF) := by
      rintro (hc | hc)
      · exact hne (Nat.xor_eq_zero.mp hc)
      · exact hsb hc
    rw [neq_mask_spec x y hx hy, if_neg hcon]

/-- C3 witness: the theorem applied at `x = y = 5` and at `x = 5, y = 6`. -/
theorem C3_witness :
    (5 : Nat) < WORD ∧ (6 : Nat) < WORD ∧
    neq_mask_nospec 5 5 = WORD - 1 ∧ neq_mask_nospec 5 6 = 0 :=
  ⟨by decide, by decide,
   (C3_neq_mask 5 5 (by decide) (by decide)).1 rfl,
   (C3_neq_mask 5 6 (by decide) (by decide)).2 (by decide) (by decide)⟩

/-- C4 counterexample: a pointer whose guard field (`2 ^ 63`) differs from the
expected magic (`0`) is returned unchanged instead of being nulled, because the
two values differ solely in the sign bit. -/
theorem C4_counterexample :
    ((fun _ : Nat => SpecStruct.mk (2 ^ 63)) 1).spec_magic ≠ 0 ∧
    magic_neq_nospec (fun _ : Nat => SpecStruct.mk (2 ^ 63)) 1 0 = 1 ∧ (1 : Nat) ≠ 0 := by
  decide

/-- C4 (amended): if the guard field equals `magic`, `magic_neq_nospec` returns the
pointer unchanged; if the guard field differs from `magic` in some bit pattern other
than solely the sign bit, it returns the null pointer `0`.  (The unamended claim,
which demands null for every differing guard, fails when guard and magic differ
exactly in the sign bit: see the counterexample.) -/
theorem C4_guarded_pointer (deref : Nat → SpecStruct) (p magic : Nat)
    (hp : p < WORD) (hmag : magic < WORD) (hg : (deref p).spec_magic < WORD) :
    ((deref p).spec_magic = magic → magic_neq_nospec deref p magic = p) ∧
    ((deref p).spec_magic ≠ magic → (deref p).spec_magic ^^^ magic ≠ HALF →
      magic_neq_nospec deref p magic = 0) := by
  constructor
  · intro he
    have hm : neq_mask_nospec ((deref p).spec_magic) magic = WORD - 1 := by
      rw [neq_mask_spec _ _ hg hmag, if_pos (Or.inl (by rw [he]; exact Nat.xor_self magic))]
    simp only [magic_neq_nospec]
    rw [hm]
    exact land_ones hp
  · intro hne hsb
    have hcon : ¬ ((deref p).spec_magic ^^^ magic = 0 ∨ (deref p).spec_magic ^^^ magic = HALF) := by
      rintro (hc | hc)
      · exact hne (Nat.xor_eq_zero.mp hc)
      · exact hsb hc
    have hm : neq_mask_nospec ((deref p).spec_magic) magic = 0 := by
      rw [neq_mask_spec _ _ hg hmag, if_neg hcon]
    simp only [magic_neq_nospec]
    rw [hm, Nat.and_zero]

/-- C4 witness: the amended theorem applied with guard field `42`, once with the
matching magic `42` and once with the differing magic `1`. -/
theorem C4_witness :
    magic_neq_nospec (fun _ : Nat => SpecStruct.mk 42) 5 42 = 5 ∧
    magic_neq_nospec (fun _ : Nat => SpecStruct.mk 42) 5 1 = 0 :=
  ⟨(C4_guarded_pointer (fun _ : Nat => SpecStruct.mk 42) 5 42
      (by decide) (by decide) (by decide)).1 rfl,
   (C4_guarded_pointer (fun _ : Nat => SpecStruct.mk 42) 5 1
      (by decide) (by decide) (by decide)).2 (by decide) (by decide)⟩

/-- C5: with no precondition at all on the inputs, both mask generators return
either the all-zeros word or the all-ones word, never a partial bit pattern. -/
theorem C5_full_mask_invariant (index size x y : Nat) :
    (array_index_mask_nospec index size = 0 ∨ array_index_mask_nospec index size = WORD - 1) ∧
    (neq_mask_nospec x y = 0 ∨ neq_mask_nospec x y = WORD - 1) :=
  ⟨array_mask_cases index size, neq_mask_cases x y⟩

/-- C6: the Index Sanitizer is idempotent: applying it twice with the same `size`
yields the same result as applying it once. -/
theorem C6_idempotent (index size : Nat) (h : index < WORD) :
    array_index_nospec (array_index_nospec index size) size = array_index_nospec index size := by
  rcases array_mask_cases index size with hm | hm
  · have h1 : array_index_nospec index size = 0 := by
      simp only [array_index_nospec]
      rw [hm, Nat.and_zero]
    rw [h1]
    simp only [array_index_nospec]
    rw [Nat.zero_and]
  · have h1 : array_index_nospec index size = index := by
      simp only [array_index_nospec]
      rw [hm]
      exact land_ones h
    rw [h1]
    exact h1

/-- C6 witness: idempotence at `index = 9`, `size = 4`. -/
theorem C6_witness :
    (9 : Nat) < WORD ∧
    array_index_nospec (array_index_nospec 9 4) 4 = array_index_nospec 9 4 :=
  ⟨by decide, C6_idempotent 9 4 (by decide)⟩

/-- C7: boundary cases of the Index Mask Generator: `size = 1, index = 0` is
in-bounds (all-ones); `index = size` is out-of-bounds (all-zeros); the maximum
machine word with `size = 1` is out-of-bounds (all-zeros). -/
theorem C7_boundary_cases :
    array_index_mask_nospec 0 1 = WORD - 1 ∧
    (∀ size : Nat, size < WORD → array_index_mask_nospec size size = 0) ∧
    array_index_mask_nospec (WORD - 1) 1 = 0 := by
  refine ⟨by decide, ?_, by decide⟩
  intro size hs
  exact array_mask_zero hs (Nat.le_refl size)

/-- C7 witness: the universally quantified middle part applied at `size = 5`. -/
theorem C7_witness : (5 : Nat) < WORD ∧ array_index_mask_nospec 5 5 = 0 :=
  ⟨by decide, C7_boundary_cases.2.1 5 (by decide)⟩

/-- C8: the default `barrier_nospec` is a no-op: it leaves every program state
unchanged. -/
theorem C8_barrier_noop : ∀ (σ : Type) (s : σ), barrier_nospec s = s :=
  fun _ _ => rfl

/-- C9: exact characterization of the Equality Mask Generator: it returns all-ones
exactly when `x ^^^ y` is `0` or the sign bit `2 ^ (BITS_PER_LONG - 1)`, and
all-zeros in every other case; in particular two unequal words differing only in
the sign bit are classified as equal. -/
theorem C9_neq_mask_exact (x y : Nat) (hx : x < WORD) (hy : y < WORD) :
    neq_mask_nospec x y = if x ^^^ y = 0 ∨ x ^^^ y = HALF then WORD - 1 else 0 :=
  neq_mask_spec x y hx hy

/-- C9 witness: the theorem applied at `x = 2 ^ 63`, `y = 0`, two unequal words
differing only in the sign bit, classified as equal (all-ones mask). -/
theorem C9_witness :
    HALF < WORD ∧ (0 : Nat) < WORD ∧
    neq_mask_nospec HALF 0 = if HALF ^^^ 0 = 0 ∨ HALF ^^^ 0 = HALF then WORD - 1 else 0 :=
  ⟨by decide, by decide, C9_neq_mask_exact HALF 0 (by decide) (by decide)⟩

/-- C10: for `size = 0`, every index is out of bounds of the empty range: the mask
is all-zeros and the sanitized index is `0`, for every unsigned machine word. -/
theorem C10_size_zero (index : Nat) (h : index < WORD) :
    array_index_mask_nospec index 0 = 0 ∧ array_index_nospec index 0 = 0 := by
  have hm := array_mask_zero h (Nat.zero_le index)
  refine ⟨hm, ?_⟩
  simp only [array_index_nospec]
  rw [hm, Nat.and_zero]

/-- C10 witness: the theorem applied at `index = 12345`. -/
theorem C10_witness :
    (12345 : Nat) < WORD ∧
    (array_index_mask_nospec 12345 0 = 0 ∧ array_index_nospec 12345 0 = 0) :=
  ⟨by decide, C10_size_zero 12345 (by decide)⟩
